import Mathlib

/-!
Verification of the BatchClip media-pipeline orchestration engine
(`src/electron/main.ts`) against its natural-language specification.

The TypeScript source is shallowly embedded: pure helpers become Lean
functions over `Rat` (JavaScript finite numbers) and `String`; the
stateful pieces (probe cache, progress dedup state, batch loops, encoder
attempt chains) become explicit state-passing functions; external
effects (subprocess spawns, filesystem access, IPC progress events) are
parametrized by oracle functions and recorded in explicit effect lists.
-/

/-- JavaScript `Math.round` on a finite number: round half toward +infinity. -/
def jsRound (x : ℚ) : ℤ :=
  ⌊x + 1 / 2⌋

/-- The clamp `Math.min(100, Math.max(0, x))` applied to percent values
throughout `main.ts`. -/
def clampPercent (x : ℚ) : ℚ :=
  min 100 (max 0 x)

/-- JavaScript whitespace characters relevant to `String.prototype.trim`
(space, tab, line feed, carriage return, vertical tab, form feed). -/
def isJsWhitespace (c : Char) : Bool :=
  c = ' ' || c = '\t' || c = '\n' || c = '\r' || c = '\x0b' || c = '\x0c'

/-- JavaScript `value.trim()`: strip leading and trailing whitespace. -/
def jsTrim (s : String) : String :=
  String.mk (((s.toList.dropWhile isJsWhitespace).reverse.dropWhile isJsWhitespace).reverse)

/-- Model of `path.join(dir, name)`, rendered with a forward-slash separator. -/
def joinPath (dir name : String) : String :=
  dir ++ "/" ++ name

/-- Decidable substring test: `pat` occurs as a contiguous substring of `s`. -/
def strContainsSub (s pat : String) : Bool :=
  (List.range (s.toList.length + 1)).any (fun k => pat.toList.isPrefixOf (s.toList.drop k))

/-- Zero-pad a natural number below 10000 to four digits, as
`Number.prototype.toFixed(4)` renders the fractional part. -/
def padFour (k : ℕ) : String :=
  if k < 10 then "000" ++ toString k
  else if k < 100 then "00" ++ toString k
  else if k < 1000 then "0" ++ toString k
  else toString k

/-- JavaScript `x.toFixed(4)` for a nonnegative finite number: round
`x * 10000` to the nearest integer (ties toward the larger value) and
print with exactly four decimal places. The source only applies it to
`clampedIntensity / 100` with the intensity strictly between 0 and 100. -/
def jsToFixedFour (x : ℚ) : String :=
  let n := (jsRound (x * 10000)).toNat
  toString (n / 10000) ++ "." ++ padFour (n % 10000)

/-- Model of `escapePathForFilter` from `main.ts`: backslashes become forward
slashes, then colons and single quotes are escaped for the ffmpeg filter
mini-language. The three sequential `replace` calls commute into one
character-wise pass because no replacement output re-triggers an earlier
replacement. -/
def escapePathForFilter (filePath : String) : String :=
  String.mk (filePath.toList.flatMap fun c =>
    if c = '\\' then ['/']
    else if c = ':' then ['\\', ':']
    else if c = '\'' then ['\\', '\\', '\'']
    else [c])

/-- Model of `buildLutFilter` from `main.ts`: the direct `lut3d` filter invocation. -/
def buildLutFilter (filePath : String) : String :=
  "lut3d=file='" ++ escapePathForFilter filePath ++ "'"

/-- Model of `buildLutFilterGraph` from `main.ts`. `none` for the `lutPath` argument
models the JavaScript `null`; the source guard `if (!lutPath)` is also
taken by the empty string, which is falsy. -/
def buildLutFilterGraph (lutPath : Option String) (lutIntensity : ℚ) : Option String :=
  match lutPath with
  | none => none
  | some p =>
    if p = "" then none
    else
      let clampedIntensity := min 100 (max 0 lutIntensity)
      if clampedIntensity ≤ 0 then none
      else if 100 ≤ clampedIntensity then some (buildLutFilter p)
      else
        let opacity := jsToFixedFour (clampedIntensity / 100)
        some ("split=2[orig][lutsrc];[lutsrc]" ++ buildLutFilter p ++
          "[lutout];[lutout][orig]blend=all_mode=normal:all_opacity=" ++ opacity)

/-- Model of `normalizeLutPath` from `main.ts`: a non-string value (modelled `none`)
yields `null`; a string is trimmed and an empty trim yields `null`. -/
def normalizeLutPath (value : Option String) : Option String :=
  match value with
  | none => none
  | some s =>
    let trimmed := jsTrim s
    if trimmed.length > 0 then some trimmed else none

/-- A JavaScript value arriving at `normalizeLutIntensity`, classified by
the behaviour of the `Number(value)` coercion: a finite number, a
non-finite number (`NaN` or an infinity), `undefined` (which coerces to
`NaN`), a string whose numeric parse is finite, or a string whose parse
is `NaN`. -/
inductive JsIntensityValue where
  | num (x : ℚ)
  | nonFiniteNum
  | undef
  | strNum (x : ℚ)
  | strNonNum
deriving DecidableEq

/-- The `Number(value)` coercion result for `JsIntensityValue`: `none`
models a non-finite outcome. -/
def jsToNumber : JsIntensityValue → Option ℚ
  | .num x => some x
  | .nonFiniteNum => none
  | .undef => none
  | .strNum x => some x
  | .strNonNum => none

/-- Model of `normalizeLutIntensity` from `main.ts`: coerce to a number, default a
non-finite result to 100, then clamp into `[0, 100]`. -/
def normalizeLutIntensity (value : JsIntensityValue) : ℚ :=
  match jsToNumber value with
  | none => 100
  | some numeric => min 100 (max 0 numeric)

/-- Model of `path.basename(p)`, restricted to extracting the final `/`-separated
component, as used before extension inspection. -/
def lastPathComponent (p : String) : String :=
  String.mk ((p.toList.reverse.takeWhile (fun c => c ≠ '/')).reverse)

/-- Model of `path.extname(p)`: the suffix of the final component from its last
dot, or the empty string when there is no dot or the only dot starts a
dotfile name. -/
def extname (p : String) : String :=
  let base := (lastPathComponent p).toList
  let rev := base.reverse
  match rev.dropWhile (fun c => c ≠ '.') with
  | [] => ""
  | [_] => ""
  | _ :: _ :: _ => String.mk ('.' :: (rev.takeWhile (fun c => c ≠ '.')).reverse)

/-- Model of `resolveLutPath` from `main.ts`, with the filesystem readability check
abstracted by `readable`. Normalizes the raw value; a missing path is
`ok none`; a path with the wrong extension or an unreadable path raises a
descriptive error. -/
def resolveLutPath (readable : String → Bool) (lutPath : Option String) :
    Except String (Option String) :=
  match normalizeLutPath lutPath with
  | none => .ok none
  | some normalizedPath =>
    if (extname normalizedPath).toLower ≠ ".cube" then
      .error "Only .cube LUT files are supported"
    else if !readable normalizedPath then
      .error ("LUT file is not readable: " ++ normalizedPath)
    else .ok (some normalizedPath)

/-- One step of the `emitProgress` closure from the `prepare-preview`
handler in `main.ts`, for a `progress`-phase sample: clamp the raw
percent into `[0, 100]`, round it, suppress it when it equals the last
reported rounded percent, and otherwise record it and emit it. The
state is the `lastReportedProgress` variable (initially `-1`). -/
def emitProgressStep (percent : ℚ) (lastReportedProgress : ℤ) : ℤ × Option ℤ :=
  let rounded := jsRound (clampPercent percent)
  if rounded = lastReportedProgress then (lastReportedProgress, none)
  else (rounded, some rounded)

/-- The percent values sent to the renderer by `emitProgress` for a
sequence of `progress`-phase raw samples, threading the
`lastReportedProgress` state. -/
def emitProgressRun (samples : List ℚ) (lastReportedProgress : ℤ) : List ℤ :=
  match samples with
  | [] => []
  | percent :: rest =>
    match emitProgressStep percent lastReportedProgress with
    | (last2, none) => emitProgressRun rest last2
    | (last2, some v) => v :: emitProgressRun rest last2

/-- The `ProbeVideoStream` type from `main.ts`; optional fields model `undefined`. -/
structure ProbeVideoStream where
  codec_name : Option String
  profile : Option String
  pix_fmt : Option String
  width : Option ℕ
  height : Option ℕ
  bit_rate_kbps : Option ℚ
deriving DecidableEq

/-- The `ProbeAudioStream` type from `main.ts`. -/
structure ProbeAudioStream where
  bit_rate_kbps : Option ℚ
deriving DecidableEq

/-- The `ProbeVideoInfo` type from `main.ts`. -/
structure ProbeVideoInfo where
  stream : Option ProbeVideoStream
  audioStream : Option ProbeAudioStream
  durationSec : Option ℚ
  formatBitRateKbps : Option ℚ
deriving DecidableEq

/-- The result of `fs.promises.stat` as used by the probe cache: file
size and modification time in milliseconds. -/
structure FileStat where
  size : ℕ
  mtimeMs : ℚ
deriving DecidableEq

/-- The `ProbeCacheEntry` type from `main.ts`. -/
structure ProbeCacheEntry where
  size : ℕ
  mtimeMs : ℚ
  info : ProbeVideoInfo
deriving DecidableEq

/-- The `probeInfoCache` JavaScript `Map`, modelled as an
insertion-ordered association list (head = oldest entry). -/
abbrev ProbeCache : Type := List (String × ProbeCacheEntry)

/-- Model of `Map.prototype.get`. -/
def cacheGet (cache : ProbeCache) (filePath : String) : Option ProbeCacheEntry :=
  match cache with
  | [] => none
  | (key, entry) :: rest =>
    if key = filePath then some entry else cacheGet rest filePath

/-- Model of `Map.prototype.set`: replace in place if the key is present
(preserving its insertion position), otherwise append at the end. -/
def cacheSet (cache : ProbeCache) (filePath : String) (entry : ProbeCacheEntry) : ProbeCache :=
  match cache with
  | [] => [(filePath, entry)]
  | (key, old) :: rest =>
    if key = filePath then (key, entry) :: rest
    else (key, old) :: cacheSet rest filePath entry

/-- The constant `MAX_PROBE_CACHE_ENTRIES` from `main.ts`. -/
def MAX_PROBE_CACHE_ENTRIES : ℕ := 128

/-- Model of `pruneProbeCacheIfNeeded` from `main.ts`: while the cache exceeds
capacity, delete the oldest (first-inserted) entry. -/
def pruneProbeCacheIfNeeded : ProbeCache → ProbeCache
  | [] => []
  | e :: rest =>
    if MAX_PROBE_CACHE_ENTRIES < (e :: rest).length then pruneProbeCacheIfNeeded rest
    else e :: rest

/-- Model of `readProbeCache` from `main.ts`, with `fs.promises.stat` abstracted by
`stat` (`none` models a stat failure, caught and turned into `null`).
Returns the cached info only when both size and modification time match. -/
def readProbeCache (stat : String → Option FileStat) (cache : ProbeCache)
    (filePath : String) : Option ProbeVideoInfo :=
  match stat filePath with
  | none => none
  | some st =>
    match cacheGet cache filePath with
    | none => none
    | some cached =>
      if cached.size = st.size ∧ cached.mtimeMs = st.mtimeMs then some cached.info
      else none

/-- Model of `writeProbeCache` from `main.ts`: stat the file (a failure is
swallowed and the cache is left unchanged), store the entry, prune. -/
def writeProbeCache (stat : String → Option FileStat) (cache : ProbeCache)
    (filePath : String) (info : ProbeVideoInfo) : ProbeCache :=
  match stat filePath with
  | none => cache
  | some st =>
    pruneProbeCacheIfNeeded (cacheSet cache filePath ⟨st.size, st.mtimeMs, info⟩)

/-- The outcome of one `probeVideoInfo` call: the returned info, the
probe cache afterwards, and whether the external ffmpeg process was
spawned. -/
structure ProbeRun where
  info : ProbeVideoInfo
  cache : ProbeCache
  spawned : Bool

/-- Model of `probeVideoInfo` from `main.ts`: serve from the cache when the
size/mtime-validated entry is present, otherwise spawn the external
process (abstracted by `spawnProbe`, which stands for the spawn plus
`parseProbeInfoFromFfmpegOutput`) and write the cache entry. -/
def probeVideoInfo (stat : String → Option FileStat)
    (spawnProbe : String → ProbeVideoInfo) (cache : ProbeCache)
    (filePath : String) : ProbeRun :=
  match readProbeCache stat cache filePath with
  | some cached => ⟨cached, cache, false⟩
  | none =>
    let info := spawnProbe filePath
    ⟨info, writeProbeCache stat cache filePath info, true⟩

/-- The `ExportEncoderConfig` type from `main.ts`. -/
structure ExportEncoderConfig where
  name : String
  videoCodec : String
  outputOptions : List String
deriving DecidableEq

/-- The constant `EXPORT_WINDOWS_QSV_ENCODER` from `main.ts`. -/
def EXPORT_WINDOWS_QSV_ENCODER : ExportEncoderConfig :=
  ⟨"h264_qsv", "h264_qsv", ["-look_ahead", "0"]⟩

/-- Model of `createSoftwareExportEncoder` from `main.ts`. -/
def createSoftwareExportEncoder (preset : String) : ExportEncoderConfig :=
  ⟨"libx264-" ++ preset, "libx264", ["-preset", preset]⟩

/-- Model of `buildExportOutputOptions` from `main.ts`: fixed container/pixel
options, the encoder's own options, the optional LUT filter graph, and
the bitrate-preservation options, each appended only when the
corresponding source bitrate is truthy (`none` models `null`, and `0`
is falsy) and strictly positive. -/
def buildExportOutputOptions (encoder : ExportEncoderConfig)
    (lutPath : Option String) (lutIntensity : ℚ)
    (sourceVideoBitRateKbps sourceAudioBitRateKbps : Option ℚ) : List String :=
  let outputOptions :=
    ["-movflags", "use_metadata_tags", "-pix_fmt", "yuv420p"] ++ encoder.outputOptions
  let outputOptions :=
    match buildLutFilterGraph lutPath lutIntensity with
    | some lutFilterGraph => outputOptions ++ ["-vf", lutFilterGraph]
    | none => outputOptions
  let outputOptions :=
    match sourceVideoBitRateKbps with
    | some v =>
      if v ≠ 0 ∧ 0 < v then outputOptions ++ ["-b:v", toString (jsRound v) ++ "k"]
      else outputOptions
    | none => outputOptions
  match sourceAudioBitRateKbps with
  | some a =>
    if a ≠ 0 ∧ 0 < a then outputOptions ++ ["-b:a", toString (jsRound a) ++ "k"]
    else outputOptions
  | none => outputOptions

/-- Model of `probeSourceInfoWithBitrates` from `main.ts`: a probe failure falls
back to an all-null info; the audio bitrate is the probed audio-stream
bitrate or `null`; the video bitrate is the probed video-stream bitrate
when defined, otherwise `max(400, containerBitrate - audioBitrate)`
when a truthy container bitrate is known, otherwise `null`. -/
def probeSourceInfoWithBitrates (probeResult : Except String ProbeVideoInfo) :
    ProbeVideoInfo × Option ℚ × Option ℚ :=
  let info :=
    match probeResult with
    | .ok i => i
    | .error _ => ⟨none, none, none, none⟩
  let sourceAudioBitRateKbps :=
    match info.audioStream with
    | some a => a.bit_rate_kbps
    | none => none
  let sourceVideoBitRateKbps :=
    match info.stream.bind ProbeVideoStream.bit_rate_kbps with
    | some b => some b
    | none =>
      match info.formatBitRateKbps with
      | some f =>
        if f ≠ 0 then some (max 400 (f - sourceAudioBitRateKbps.getD 0))
        else none
      | none => none
  (info, sourceVideoBitRateKbps, sourceAudioBitRateKbps)

/-- The outcome of one encoder attempt in `exportSingleClip` /
`exportSingleFullVideo` / `createPreviewProxy`: the ffmpeg run either
succeeds (the output file is written) or fails with the thrown error's
message, possibly leaving a partial output file behind. -/
inductive AttemptOutcome where
  | success
  | failure (msg : String) (leavesPartial : Bool)
deriving DecidableEq

/-- An observable event of the encoder attempt chain: an encoder attempt
was started, or `removeFileIfExists` was invoked on the output path
(deleting the file; an ENOENT outcome is ignored, so afterwards the
output never exists either way). -/
inductive ExportEvent where
  | attempt (encoderName : String)
  | removePartialOutput
deriving DecidableEq

/-- The result of the `exportSingleClip` attempt loop from `main.ts`:
the event trace, the overall outcome (the winning encoder or the final
thrown message), and whether the output file exists afterwards. -/
structure AttemptChainRun where
  events : List ExportEvent
  result : Except String ExportEncoderConfig
  outputExists : Bool

/-- The encoder attempt loop of `exportSingleClip` from `main.ts`
(`exportSingleFullVideo` and `createPreviewProxy` share the identical
shape): try each candidate in list order; on success return immediately;
on failure record the error message as `lastErrorMessage`, delete the
partial output (`removeFileIfExists`), and continue; once all candidates
are exhausted, throw the last recorded message. `run` abstracts one
ffmpeg invocation per candidate. -/
def exportSingleClip (run : ExportEncoderConfig → AttemptOutcome) :
    List ExportEncoderConfig → String → AttemptChainRun
  | [], lastErrorMessage => ⟨[], .error lastErrorMessage, false⟩
  | encoder :: rest, _lastErrorMessage =>
    match run encoder with
    | .success => ⟨[.attempt encoder.name], .ok encoder, true⟩
    | .failure msg _leavesPartial =>
      let tail := exportSingleClip run rest msg
      ⟨.attempt encoder.name :: .removePartialOutput :: tail.events,
        tail.result, tail.outputExists⟩

/-- The initial `lastErrorMessage` of `exportSingleClip`. -/
def FAILED_TO_EXPORT_CLIP : String := "Failed to export clip"

/-- One candidate path probed by `buildUniqueOutputPath`: the bare
`baseName` for suffix 1, `baseName_suffix` afterwards. -/
def uniqueCandidatePath (outputDir baseName normalizedExtension : String)
    (suffix : ℕ) : String :=
  if suffix = 1 then joinPath outputDir (baseName ++ normalizedExtension)
  else joinPath outputDir (baseName ++ "_" ++ toString suffix ++ normalizedExtension)

/-- The probing loop of `buildUniqueOutputPath`: `fileTaken` abstracts
the `fs.promises.access(candidatePath, F_OK)` check (`true` = the file
exists, so the loop continues). `fuel` counts the remaining iterations
of `for (let suffix = 1; suffix < 100000; suffix++)`. -/
def buildUniqueOutputPathLoop (fileTaken : String → Bool)
    (outputDir baseName normalizedExtension : String) :
    ℕ → ℕ → Option String
  | 0, _ => none
  | fuel + 1, suffix =>
    let candidatePath := uniqueCandidatePath outputDir baseName normalizedExtension suffix
    if fileTaken candidatePath then
      buildUniqueOutputPathLoop fileTaken outputDir baseName normalizedExtension fuel (suffix + 1)
    else some candidatePath

/-- The `normalizedExtension` computed at the top of
`buildUniqueOutputPath`: ensure a leading dot
(`extension.startsWith('.')`, modelled on the character list). -/
def normalizedExtensionOf (extension : String) : String :=
  if ".".toList.isPrefixOf extension.toList then extension else "." ++ extension

/-- Model of `buildUniqueOutputPath` from `main.ts`: normalize the extension to
start with a dot, then probe suffixes 1 through 99999; `none` models the
`Failed to allocate output file path` error on exhaustion. -/
def buildUniqueOutputPath (fileTaken : String → Bool)
    (outputDir baseName extension : String) : Option String :=
  buildUniqueOutputPathLoop fileTaken outputDir baseName
    (normalizedExtensionOf extension) 99999 1

/-- A segment handed to the `process-batch` handler. -/
structure BatchSegment where
  id : String
  startSec : ℚ
  endSec : ℚ
deriving DecidableEq

/-- One entry of the `results` array returned by the `process-batch` and
`process-lut-full-batch` handlers. -/
structure PerItemResult where
  id : String
  success : Bool
  path : Option String
  error : Option String
deriving DecidableEq

/-- One invocation of `exportSingleClip` issued by the `process-batch`
loop: the 1-based clip index and the arguments derived from the segment. -/
structure EngineCall where
  clipIndex : ℕ
  segId : String
  startSec : ℚ
  durationSec : ℚ
  outputPath : String
deriving DecidableEq

/-- Model of `clipIndex.toString().padStart(2, '0')`. -/
def padTwo (n : ℕ) : String :=
  if n < 10 then "0" ++ toString n else toString n

/-- The output path chosen by the `process-batch` loop for the segment at
0-based index `i`: `outputDir/baseName_clip_{i+1 zero-padded}.mov`. -/
def clipOutputPath (outputDir baseName : String) (i : ℕ) : String :=
  joinPath outputDir (baseName ++ "_clip_" ++ padTwo (i + 1) ++ ".mov")

/-- The segment loop of the `process-batch` handler from `main.ts`,
accumulating the `results` array and the list of `exportSingleClip`
invocations. `engine` abstracts a whole `exportSingleClip` call (the
encoder attempt chain) for the `i`-th segment; the handler computes
`duration = seg.end - seg.start` with no validation, attempts the
export, and on failure removes the partial file and records the error
message, continuing with the next segment. -/
def processBatchGo (engine : ℕ → BatchSegment → Except String Unit)
    (baseName outputDir : String) :
    ℕ → List BatchSegment → List PerItemResult → List EngineCall →
    List PerItemResult × List EngineCall
  | _, [], results, calls => (results, calls)
  | i, seg :: rest, results, calls =>
    let duration := seg.endSec - seg.startSec
    let tempVidPath := clipOutputPath outputDir baseName i
    let call : EngineCall := ⟨i + 1, seg.id, seg.startSec, duration, tempVidPath⟩
    match engine i seg with
    | .ok _ =>
      processBatchGo engine baseName outputDir (i + 1) rest
        (results ++ [⟨seg.id, true, some tempVidPath, none⟩]) (calls ++ [call])
    | .error errorMessage =>
      processBatchGo engine baseName outputDir (i + 1) rest
        (results ++ [⟨seg.id, false, none, some errorMessage⟩]) (calls ++ [call])

/-- The reply of the `process-batch` handler. -/
structure BatchReply where
  success : Bool
  results : List PerItemResult
deriving DecidableEq

/-- The `process-batch` handler's segment-processing core from `main.ts`:
run the loop over all segments and reply `{ success: true, results }`
regardless of per-item failures. Also exposes the `exportSingleClip`
invocation list for inspection. -/
def processBatch (engine : ℕ → BatchSegment → Except String Unit)
    (baseName outputDir : String) (segments : List BatchSegment) :
    BatchReply × List EngineCall :=
  let (results, calls) := processBatchGo engine baseName outputDir 0 segments [] []
  (⟨true, results⟩, calls)

/-- The per-item outcome the `process-batch` loop records for the segment
at 0-based index `i`. -/
def perItemOutcome (engine : ℕ → BatchSegment → Except String Unit)
    (baseName outputDir : String) (i : ℕ) (seg : BatchSegment) : PerItemResult :=
  match engine i seg with
  | .ok _ => ⟨seg.id, true, some (clipOutputPath outputDir baseName i), none⟩
  | .error errorMessage => ⟨seg.id, false, none, some errorMessage⟩

/-- An observable effect of the `process-lut-full-batch` handler: a
progress event sent to the renderer, the output-directory `mkdir`, or an
external effect performed inside one video's processing (subprocess
spawns for probing and transcoding, filesystem probing), produced by the
per-video oracle. -/
inductive BatchEffect where
  | progressEvent (phase : String) (percent : ℤ) (currentClip totalClips : ℕ)
  | mkdirEffect (dir : String)
  | externalEffect (tag : String)
deriving DecidableEq

/-- One shared `emitExportProgress` step (used verbatim by both batch
handlers): when no job id was supplied nothing is emitted; otherwise the
percent is clamped and rounded, a `progress`-phase value equal to
`lastReportedProgress` is suppressed, a `progress`-phase value updates
the state, and the event is sent. -/
def emitExportProgressStep (progressJobId : Option String) (phase : String)
    (percent : ℚ) (currentClip totalClips : ℕ) (lastReportedProgress : ℤ) :
    ℤ × List BatchEffect :=
  match progressJobId with
  | none => (lastReportedProgress, [])
  | some _ =>
    let rounded := jsRound (clampPercent percent)
    if phase = "progress" ∧ rounded = lastReportedProgress then
      (lastReportedProgress, [])
    else
      ((if phase = "progress" then rounded else lastReportedProgress),
        [.progressEvent phase rounded currentClip totalClips])

/-- One entry of the `videos` argument of `process-lut-full-batch`
(entries that are not objects with non-empty string `id` and `filePath`
are modelled as already absent; the handler filters them out). -/
structure VideoEntry where
  id : String
  filePath : String
deriving DecidableEq

/-- What one iteration of the `process-lut-full-batch` loop does beyond
progress bookkeeping, abstracted as an oracle result: the external
effects it performs (probe/transcode spawns, filesystem access), the raw
per-video progress callbacks it delivers, and its outcome (the allocated
output path on success, the error message on failure). -/
structure LutVideoRun where
  effects : List BatchEffect
  progressSamples : List ℚ
  outcome : Except String String

/-- The folding of one video's raw progress callbacks through
`emitVideoProgress` from `main.ts`: `maxVideoPercent` keeps the running
maximum of the clamped samples, and each callback reports
`segmentStartPercent + (maxVideoPercent / 100) * segmentWeight` through
`emitExportProgress`. -/
def emitVideoProgressRun (progressJobId : Option String)
    (segmentStartPercent segmentWeight : ℚ) (currentClip totalClips : ℕ) :
    List ℚ → ℚ → ℤ → ℤ × List BatchEffect
  | [], _, lastReportedProgress => (lastReportedProgress, [])
  | sample :: rest, maxVideoPercent, lastReportedProgress =>
    let maxVideoPercent := max maxVideoPercent (clampPercent sample)
    let overallPercent := segmentStartPercent + (maxVideoPercent / 100) * segmentWeight
    let (last2, evs) := emitExportProgressStep progressJobId "progress" overallPercent
      currentClip totalClips lastReportedProgress
    let (last3, evs2) := emitVideoProgressRun progressJobId segmentStartPercent
      segmentWeight currentClip totalClips rest maxVideoPercent last2
    (last3, evs ++ evs2)

/-- The per-video loop of the `process-lut-full-batch` handler: for each
video, run the probe/allocate/transcode body (the oracle), fold its
progress callbacks, emit the end-of-item progress, and record the
per-item result; failures are isolated per item. -/
def lutBatchGo (progressJobId : Option String)
    (runVideo : ℕ → VideoEntry → LutVideoRun) (totalVideos : ℕ) :
    ℕ → List VideoEntry → ℤ → List PerItemResult → List BatchEffect →
    List PerItemResult × List BatchEffect × ℤ
  | _, [], lastReportedProgress, results, effects => (results, effects, lastReportedProgress)
  | i, entry :: rest, lastReportedProgress, results, effects =>
    let videoIndex := i + 1
    let segmentStartPercent := ((i : ℚ) / (max totalVideos 1 : ℕ)) * 100
    let segmentWeight := (100 : ℚ) / (max totalVideos 1 : ℕ)
    let videoRun := runVideo i entry
    let (last2, evs) := emitVideoProgressRun progressJobId segmentStartPercent
      segmentWeight videoIndex totalVideos videoRun.progressSamples 0 lastReportedProgress
    let (last3, evs2) := emitExportProgressStep progressJobId "progress"
      (((i : ℚ) + 1) / (max totalVideos 1 : ℕ) * 100) videoIndex totalVideos last2
    match videoRun.outcome with
    | .ok outputPath =>
      lutBatchGo progressJobId runVideo totalVideos (i + 1) rest last3
        (results ++ [⟨entry.id, true, some outputPath, none⟩])
        (effects ++ videoRun.effects ++ evs ++ evs2)
    | .error errorMessage =>
      lutBatchGo progressJobId runVideo totalVideos (i + 1) rest last3
        (results ++ [⟨entry.id, false, none, some errorMessage⟩])
        (effects ++ videoRun.effects ++ evs ++ evs2)

/-- The `process-lut-full-batch` handler from `main.ts`: resolve the LUT
path (an invalid LUT path fails fast with `{ success: false, results: [] }`
and no effect at all — no mkdir, no subprocess, no progress event);
otherwise filter the video list down to entries with non-empty id and
file path, emit the `start` event, create the output directory, process
every video sequentially, and emit the `done` event. An extension or
readability error from `resolveLutPath` escapes the handler (`.error`). -/
def processLutFullBatch (readable : String → Bool)
    (runVideo : ℕ → VideoEntry → LutVideoRun) (videos : List VideoEntry)
    (outputDir : String) (lutPath : Option String) (jobId : Option String) :
    Except String (BatchReply × List BatchEffect) :=
  match resolveLutPath readable lutPath with
  | .error e => .error e
  | .ok none => .ok (⟨false, []⟩, [])
  | .ok (some _) =>
    let normalizedVideos := videos.filter (fun v => v.id != "" && v.filePath != "")
    let totalVideos := normalizedVideos.length
    let progressJobId := jobId
    let (last1, startEvs) :=
      emitExportProgressStep progressJobId "start" 0 0 totalVideos (-1)
    let (results, itemEvs, last2) :=
      lutBatchGo progressJobId runVideo totalVideos 0 normalizedVideos last1 [] []
    let (_, doneEvs) :=
      emitExportProgressStep progressJobId "done" 100 totalVideos totalVideos last2
    .ok (⟨true, results⟩,
      startEvs ++ [.mkdirEffect outputDir] ++ itemEvs ++ doneEvs)

/-- Whether an `AttemptOutcome` is a failure. -/
def AttemptOutcome.isFailure : AttemptOutcome → Bool
  | .success => false
  | .failure _ _ => true

/-- The `exportSingleClip` invocation the `process-batch` loop issues for
the segment at 0-based index `i`. -/
def engineCallFor (baseName outputDir : String) (i : ℕ) (seg : BatchSegment) : EngineCall :=
  ⟨i + 1, seg.id, seg.startSec, seg.endSec - seg.startSec, clipOutputPath outputDir baseName i⟩

/-- The spec scenario segment `{id:"a", start:0, end:2}`. -/
def segA : BatchSegment := ⟨"a", 0, 2⟩

/-- The spec scenario segment `{id:"b", start:5, end:4}` (end < start). -/
def segB : BatchSegment := ⟨"b", 5, 4⟩

/-- Three segments for the batch-isolation scenario. -/
def demoSegments : List BatchSegment := [⟨"s1", 0, 2⟩, ⟨"s2", 3, 5⟩, ⟨"s3", 6, 9⟩]

/-- A transcode oracle whose second item (0-based index 1) always fails. -/
def demoEngine : ℕ → BatchSegment → Except String Unit :=
  fun i _ => if i = 1 then .error "encoder failed" else .ok ()

/-- A concrete probe result: container bitrate 5000 kb/s, audio stream at
128 kb/s, no per-stream video bitrate. -/
def demoProbeInfo : ProbeVideoInfo :=
  ⟨some ⟨some "h264", some "high", some "yuv420p", some 1920, some 1080, none⟩,
    some ⟨some 128⟩, some 120, some 5000⟩

/-- C10: a `lutIntensity` that is not a finite number (`NaN`/infinite,
`undefined`, or a non-numeric string) is normalized to 100 — full LUT
strength, not skipped — and any finite value (number or numeric string)
is clamped into `[0, 100]`. -/
theorem normalizeLutIntensity_nonfinite_defaults_and_clamps :
    normalizeLutIntensity .nonFiniteNum = 100 ∧
    normalizeLutIntensity .undef = 100 ∧
    normalizeLutIntensity .strNonNum = 100 ∧
    (∀ x : ℚ, normalizeLutIntensity (.num x) = min 100 (max 0 x)) ∧
    (∀ x : ℚ, normalizeLutIntensity (.strNum x) = min 100 (max 0 x)) ∧
    (∀ x : ℚ, 0 ≤ normalizeLutIntensity (.num x) ∧ normalizeLutIntensity (.num x) ≤ 100) := by
  refine ⟨rfl, rfl, rfl, fun x => rfl, fun x => rfl, fun x => ⟨?_, ?_⟩⟩
  · exact le_min (by norm_num) (le_max_left 0 x)
  · exact min_le_left _ _

/-- C1 counterexample: for the `prepare-preview` progress emitter, the
raw sample sequence `[80, 30]` delivered for one job (starting from the
initial `lastReportedProgress = -1`) is re-emitted as `[80, 30]`: the
emitted percent sequence is not non-decreasing after rounding, and the
re-emitted `30` is not strictly greater than the previously emitted
`80`. -/
theorem emitProgress_regressive_counterexample :
    emitProgressRun [(80 : ℚ), 30] (-1) = [80, 30] ∧
    ¬ List.Chain' (fun a b : ℤ => a ≤ b) (emitProgressRun [(80 : ℚ), 30] (-1)) := by
  have h80 : jsRound (clampPercent 80) = 80 := by
    norm_num [jsRound, clampPercent]
  have h30 : jsRound (clampPercent 30) = 30 := by
    norm_num [jsRound, clampPercent]
  have hrun : emitProgressRun [(80 : ℚ), 30] (-1) = [80, 30] := by
    simp [emitProgressRun, emitProgressStep, h80, h30]
  refine ⟨hrun, ?_⟩
  rw [hrun]
  intro hchain
  have := List.Chain'.rel_head hchain
  norm_num at this

/-- C1 amended: the `prepare-preview` progress emitter suppresses exactly
the samples whose rounded clamped percent equals the last reported one,
so every emitted value differs from its predecessor (the initial state
`-1` included); the emitted sequence is NOT forced to be non-decreasing —
a regressive raw sample is re-emitted at its lower rounded value, as the
counterexample shows. -/
theorem emitProgress_consecutive_emits_differ :
    ∀ (samples : List ℚ) (lastReportedProgress : ℤ),
      List.Chain (fun a b : ℤ => a ≠ b) lastReportedProgress
        (emitProgressRun samples lastReportedProgress) := by
  intro samples
  induction samples with
  | nil => intro last; simp [emitProgressRun]
  | cons percent rest ih =>
    intro last
    by_cases h : jsRound (clampPercent percent) = last
    · simpa [emitProgressRun, emitProgressStep, h] using ih last
    · have hrun : emitProgressRun (percent :: rest) last =
          jsRound (clampPercent percent) ::
            emitProgressRun rest (jsRound (clampPercent percent)) := by
        simp [emitProgressRun, emitProgressStep, h]
      rw [hrun]
      exact List.Chain.cons (Ne.symm h) (ih _)

/-- Evaluation fact: `toFixed(4)` of one half renders `0.5000`. -/
theorem jsToFixedFour_half : jsToFixedFour (50 / 100) = "0.5000" := by
  have h : jsRound ((50 : ℚ) / 100 * 10000) = 5000 := by norm_num [jsRound]
  rw [jsToFixedFour, h]
  decide

/-- Evaluation fact: `toFixed(4)` of one quarter renders `0.2500`. -/
theorem jsToFixedFour_quarter : jsToFixedFour (25 / 100) = "0.2500" := by
  have h : jsRound ((25 : ℚ) / 100 * 10000) = 2500 := by norm_num [jsRound]
  rw [jsToFixedFour, h]
  decide

/-- C5: for every LUT path, the filter-graph builder returns `null` at
intensity ≤ 0 (and for a `null` path); at intensity ≥ 100 it returns the
direct `lut3d` application; at EVERY intermediate intensity
`0 < i < 100` it returns the split/blend graph whose opacity is
`i / 100` rendered through `toFixed(4)` (in particular `0.5000` at
intensity 50); and on the concrete path `/luts/teal.cube` the
intensity-100 graph contains no blend operator while the intensity-50
graph contains both the LUT application and the blend at opacity
`0.5000`. (The empty string is excluded: it is falsy in the source guard
and `resolveLutPath` never produces it.) -/
theorem buildLutFilterGraph_intensity_policy :
    (∀ i : ℚ, buildLutFilterGraph none i = none) ∧
    (∀ (p : String) (i : ℚ), i ≤ 0 → buildLutFilterGraph (some p) i = none) ∧
    (∀ (p : String) (i : ℚ), p ≠ "" → 100 ≤ i →
      buildLutFilterGraph (some p) i = some (buildLutFilter p)) ∧
    (∀ (p : String) (i : ℚ), p ≠ "" → 0 < i → i < 100 →
      buildLutFilterGraph (some p) i =
        some ("split=2[orig][lutsrc];[lutsrc]" ++ buildLutFilter p ++
          ("[lutout];[lutout][orig]blend=all_mode=normal:all_opacity=" ++
            jsToFixedFour (i / 100)))) ∧
    (∀ p : String, p ≠ "" →
      buildLutFilterGraph (some p) 50 =
        some ("split=2[orig][lutsrc];[lutsrc]" ++ buildLutFilter p ++
          "[lutout];[lutout][orig]blend=all_mode=normal:all_opacity=0.5000")) ∧
    strContainsSub ((buildLutFilterGraph (some "/luts/teal.cube") 100).getD "") "blend" = false ∧
    strContainsSub ((buildLutFilterGraph (some "/luts/teal.cube") 50).getD "")
      "blend=all_mode=normal:all_opacity=0.5000" = true ∧
    strContainsSub ((buildLutFilterGraph (some "/luts/teal.cube") 50).getD "")
      "lut3d=file=" = true := by
  have h50 : buildLutFilterGraph (some "/luts/teal.cube") 50 =
      some ("split=2[orig][lutsrc];[lutsrc]" ++ buildLutFilter "/luts/teal.cube" ++
        "[lutout];[lutout][orig]blend=all_mode=normal:all_opacity=0.5000") := by
    rw [buildLutFilterGraph]
    rw [if_neg (by decide)]
    have hclamp : min (100 : ℚ) (max 0 50) = 50 := by norm_num
    rw [hclamp, if_neg (by norm_num), if_neg (by norm_num), jsToFixedFour_half]
    simp only [String.append_assoc]
    rfl
  have h100 : buildLutFilterGraph (some "/luts/teal.cube") 100 =
      some (buildLutFilter "/luts/teal.cube") := by
    rw [buildLutFilterGraph]
    rw [if_neg (by decide)]
    have hclamp : min (100 : ℚ) (max 0 100) = 100 := by norm_num
    rw [hclamp, if_neg (by norm_num), if_pos (by norm_num)]
  refine ⟨fun i => rfl, ?_, ?_, ?_, ?_, ?_, ?_, ?_⟩
  · intro p i h
    have hmax : max (0 : ℚ) i = 0 := max_eq_left h
    by_cases hp : p = ""
    · simp [buildLutFilterGraph, hp]
    · rw [buildLutFilterGraph, if_neg hp, hmax]
      rw [if_pos (by norm_num)]
  · intro p i hp h
    have hmax : max (0 : ℚ) i = i := max_eq_right (by linarith)
    have hmin : min (100 : ℚ) i = 100 := min_eq_left h
    rw [buildLutFilterGraph, if_neg hp, hmax, hmin]
    rw [if_neg (by norm_num), if_pos (by norm_num)]
  · intro p i hp h0 h100i
    have hmax : max (0 : ℚ) i = i := max_eq_right (le_of_lt h0)
    have hmin : min (100 : ℚ) i = i := min_eq_right (le_of_lt h100i)
    rw [buildLutFilterGraph, if_neg hp, hmax, hmin]
    rw [if_neg (by linarith), if_neg (by linarith)]
    simp only [String.append_assoc]
  · intro p hp
    have hclamp : min (100 : ℚ) (max 0 50) = 50 := by norm_num
    rw [buildLutFilterGraph, if_neg hp, hclamp]
    rw [if_neg (by norm_num), if_neg (by norm_num), jsToFixedFour_half]
    simp only [String.append_assoc]
    rfl
  · rw [h100]; decide
  · rw [h50]; decide
  · rw [h50]; decide

/-- Witness for the LUT intensity policy at the concrete path
`/luts/teal.cube` and intensities 0, 100, 50 and 25 (the last two via
the universal intermediate-regime conjunct's opacity rendering). -/
theorem buildLutFilterGraph_intensity_policy_witness :
    buildLutFilterGraph (some "/luts/teal.cube") 0 = none ∧
    buildLutFilterGraph (some "/luts/teal.cube") 100 =
      some (buildLutFilter "/luts/teal.cube") ∧
    buildLutFilterGraph (some "/luts/teal.cube") 50 =
      some ("split=2[orig][lutsrc];[lutsrc]" ++ buildLutFilter "/luts/teal.cube" ++
        "[lutout];[lutout][orig]blend=all_mode=normal:all_opacity=0.5000") ∧
    buildLutFilterGraph (some "/luts/teal.cube") 25 =
      some ("split=2[orig][lutsrc];[lutsrc]" ++ buildLutFilter "/luts/teal.cube" ++
        "[lutout];[lutout][orig]blend=all_mode=normal:all_opacity=0.2500") := by
  refine ⟨buildLutFilterGraph_intensity_policy.2.1 _ 0 (by norm_num),
    buildLutFilterGraph_intensity_policy.2.2.1 _ 100 (by decide) (by norm_num),
    buildLutFilterGraph_intensity_policy.2.2.2.2.1 _ (by decide), ?_⟩
  have h := buildLutFilterGraph_intensity_policy.2.2.2.1 "/luts/teal.cube" 25
    (by decide) (by norm_num) (by norm_num)
  rw [h, jsToFixedFour_quarter]
  rfl

/-- The unique-output-path loop returns the first free candidate: if every
suffix from `start` up to (excluding) `s` is taken and `s` is free and
within the fuel budget, the loop stops at `s`. -/
theorem buildUniqueOutputPathLoop_first_free (fileTaken : String → Bool)
    (dir base ext : String) :
    ∀ (fuel start s : ℕ), start ≤ s → s < start + fuel →
      (∀ j, start ≤ j → j < s → fileTaken (uniqueCandidatePath dir base ext j) = true) →
      fileTaken (uniqueCandidatePath dir base ext s) = false →
      buildUniqueOutputPathLoop fileTaken dir base ext fuel start =
        some (uniqueCandidatePath dir base ext s) := by
  intro fuel
  induction fuel with
  | zero => intro start s hle hlt _ _; omega
  | succ n ih =>
    intro start s hle hlt htaken hfree
    by_cases hs : start = s
    · subst hs
      rw [buildUniqueOutputPathLoop, if_neg (by rw [hfree]; simp)]
    · have hstart : fileTaken (uniqueCandidatePath dir base ext start) = true :=
        htaken start le_rfl (by omega)
      rw [buildUniqueOutputPathLoop, if_pos hstart]
      exact ih (start + 1) s (by omega) (by omega)
        (fun j h1 h2 => htaken j (by omega) h2) hfree

/-- The unique-output-path loop exhausts its fuel when every candidate in
its range is taken. -/
theorem buildUniqueOutputPathLoop_exhaust (fileTaken : String → Bool)
    (dir base ext : String) :
    ∀ (fuel start : ℕ),
      (∀ j, fileTaken (uniqueCandidatePath dir base ext j) = true) →
      buildUniqueOutputPathLoop fileTaken dir base ext fuel start = none := by
  intro fuel
  induction fuel with
  | zero => intro start _; rfl
  | succ n ih =>
    intro start htaken
    rw [buildUniqueOutputPathLoop, if_pos (htaken start)]
    exact ih (start + 1) htaken

/-- C8: `buildUniqueOutputPath` returns the bare base name when it is
free; when some names are taken it returns the candidate with the
smallest suffix `s` whose name is free (candidate 1 is the bare name,
candidate `s ≥ 2` appends `_s`), provided `s` is within the bounded
search `1 ≤ s ≤ 99999`; and when every bounded attempt is taken it fails
(the `Failed to allocate output file path` error, modelled `none`). -/
theorem buildUniqueOutputPath_unique_suffix :
    (∀ (fileTaken : String → Bool) (dir base ext : String),
      fileTaken (uniqueCandidatePath dir base (normalizedExtensionOf ext) 1) = false →
      buildUniqueOutputPath fileTaken dir base ext =
        some (joinPath dir (base ++ normalizedExtensionOf ext))) ∧
    (∀ (fileTaken : String → Bool) (dir base ext : String) (s : ℕ),
      1 ≤ s → s ≤ 99999 →
      (∀ j, 1 ≤ j → j < s →
        fileTaken (uniqueCandidatePath dir base (normalizedExtensionOf ext) j) = true) →
      fileTaken (uniqueCandidatePath dir base (normalizedExtensionOf ext) s) = false →
      buildUniqueOutputPath fileTaken dir base ext =
        some (uniqueCandidatePath dir base (normalizedExtensionOf ext) s)) ∧
    (∀ (fileTaken : String → Bool) (dir base ext : String),
      (∀ j, fileTaken (uniqueCandidatePath dir base (normalizedExtensionOf ext) j) = true) →
      buildUniqueOutputPath fileTaken dir base ext = none) := by
  refine ⟨?_, ?_, ?_⟩
  · intro fileTaken dir base ext hfree
    have h := buildUniqueOutputPathLoop_first_free fileTaken dir base
      (normalizedExtensionOf ext) 99999 1 1 le_rfl (by omega)
      (fun j h1 h2 => by omega) hfree
    rw [buildUniqueOutputPath, h]
    rfl
  · intro fileTaken dir base ext s h1 h2 htaken hfree
    exact buildUniqueOutputPathLoop_first_free fileTaken dir base
      (normalizedExtensionOf ext) 99999 1 s h1 (by omega) htaken hfree
  · intro fileTaken dir base ext htaken
    exact buildUniqueOutputPathLoop_exhaust fileTaken dir base
      (normalizedExtensionOf ext) 99999 1 htaken

/-- Witness: an output directory already containing `video_lut.mov`
makes `buildUniqueOutputPath` return `video_lut_2.mov`. -/
theorem buildUniqueOutputPath_unique_suffix_witness :
    buildUniqueOutputPath (fun s => s == "out/video_lut.mov") "out" "video_lut" ".mov" =
      some "out/video_lut_2.mov" := by
  have h := buildUniqueOutputPath_unique_suffix.2.1
    (fun s => s == "out/video_lut.mov") "out" "video_lut" ".mov" 2
    (by norm_num) (by norm_num)
    (by intro j hj1 hj2
        have hj : j = 1 := by omega
        subst hj
        decide)
    (by decide)
  rw [h]
  decide


/-- C4: the encoder attempt chain tries candidates strictly in list
order; on the first success it returns that candidate's output
immediately, with no later candidate attempted; after every failure the
partial output is deleted (`removeFileIfExists`, ENOENT ignored) before
the next candidate runs; and only when every candidate fails does the
chain throw, with the message of the LAST candidate's failure, the
output no longer existing. -/
theorem exportSingleClip_attempt_chain :
    (∀ (run : ExportEncoderConfig → AttemptOutcome)
       (pre : List ExportEncoderConfig) (e : ExportEncoderConfig)
       (post : List ExportEncoderConfig) (msg0 : String),
      (∀ c ∈ pre, (run c).isFailure = true) → run e = .success →
      exportSingleClip run (pre ++ e :: post) msg0 =
        ⟨pre.flatMap (fun c => [.attempt c.name, .removePartialOutput]) ++ [.attempt e.name],
          .ok e, true⟩) ∧
    (∀ (run : ExportEncoderConfig → AttemptOutcome)
       (cs : List ExportEncoderConfig) (clast : ExportEncoderConfig)
       (msg0 msgLast : String) (b : Bool),
      (∀ c ∈ cs, (run c).isFailure = true) → run clast = .failure msgLast b →
      exportSingleClip run (cs ++ [clast]) msg0 =
        ⟨(cs ++ [clast]).flatMap (fun c => [.attempt c.name, .removePartialOutput]),
          .error msgLast, false⟩) := by
  constructor
  · intro run pre
    induction pre with
    | nil =>
      intro e post msg0 _ hsuccess
      simp [exportSingleClip, hsuccess]
    | cons c pre ih =>
      intro e post msg0 hfail hsuccess
      have hc : (run c).isFailure = true := hfail c (List.mem_cons_self c pre)
      rcases hrc : run c with _ | ⟨m, b⟩
      · rw [hrc] at hc; simp [AttemptOutcome.isFailure] at hc
      · have htail := ih e post m (fun d hd => hfail d (List.mem_cons_of_mem c hd)) hsuccess
        rw [List.cons_append, exportSingleClip]
        simp only [hrc]
        rw [htail]
        simp [List.flatMap_cons]
  · intro run cs
    induction cs with
    | nil =>
      intro clast msg0 msgLast b _ hlast
      simp only [List.nil_append, List.flatMap_cons, List.flatMap_nil]
      rw [exportSingleClip]
      simp only [hlast]
      rw [exportSingleClip]
      simp
    | cons c cs ih =>
      intro clast msg0 msgLast b hfail hlast
      have hc : (run c).isFailure = true := hfail c (List.mem_cons_self c cs)
      rcases hrc : run c with _ | ⟨m, b'⟩
      · rw [hrc] at hc; simp [AttemptOutcome.isFailure] at hc
      · have htail := ih clast m msgLast b (fun d hd => hfail d (List.mem_cons_of_mem c hd)) hlast
        rw [List.cons_append, exportSingleClip]
        simp only [hrc]
        rw [htail]
        simp [List.flatMap_cons]

/-- Witness: three candidates where the first two fail and the third
succeeds — the chain returns the third candidate, having deleted the two
partial outputs in between — and a chain whose candidates all fail
throws the last candidate's message with the output removed. -/
theorem exportSingleClip_attempt_chain_witness :
    exportSingleClip
      (fun c => if c.name = "h264_qsv" then .failure "qsv crashed" true
        else if c.name = "libx264-fast" then .failure "x264 fast crashed" false
        else .success)
      [EXPORT_WINDOWS_QSV_ENCODER, createSoftwareExportEncoder "fast",
        createSoftwareExportEncoder "medium"] FAILED_TO_EXPORT_CLIP =
      ⟨[.attempt "h264_qsv", .removePartialOutput, .attempt "libx264-fast",
          .removePartialOutput, .attempt "libx264-medium"],
        .ok (createSoftwareExportEncoder "medium"), true⟩ ∧
    exportSingleClip
      (fun c => if c.name = "h264_qsv" then .failure "qsv crashed" true
        else .failure "x264 crashed" false)
      [EXPORT_WINDOWS_QSV_ENCODER, createSoftwareExportEncoder "fast"]
      FAILED_TO_EXPORT_CLIP =
      ⟨[.attempt "h264_qsv", .removePartialOutput, .attempt "libx264-fast",
          .removePartialOutput],
        .error "x264 crashed", false⟩ := by
  constructor
  · have h := exportSingleClip_attempt_chain.1
      (fun c => if c.name = "h264_qsv" then .failure "qsv crashed" true
        else if c.name = "libx264-fast" then .failure "x264 fast crashed" false
        else .success)
      [EXPORT_WINDOWS_QSV_ENCODER, createSoftwareExportEncoder "fast"]
      (createSoftwareExportEncoder "medium") [] FAILED_TO_EXPORT_CLIP
      (by intro c hc
          rcases List.mem_cons.mp hc with h | h
          · subst h; decide
          · rcases List.mem_cons.mp h with h2 | h2
            · subst h2; decide
            · simp at h2)
      (by decide)
    rw [show ([EXPORT_WINDOWS_QSV_ENCODER, createSoftwareExportEncoder "fast"] ++
        createSoftwareExportEncoder "medium" :: [] :
        List ExportEncoderConfig) =
      [EXPORT_WINDOWS_QSV_ENCODER, createSoftwareExportEncoder "fast",
        createSoftwareExportEncoder "medium"] from rfl] at h
    rw [h]
    refine congrArg (fun evs => AttemptChainRun.mk evs _ _) ?_
    decide
  · have h := exportSingleClip_attempt_chain.2
      (fun c => if c.name = "h264_qsv" then .failure "qsv crashed" true
        else .failure "x264 crashed" false)
      [EXPORT_WINDOWS_QSV_ENCODER] (createSoftwareExportEncoder "fast")
      FAILED_TO_EXPORT_CLIP "x264 crashed" false
      (by intro c hc
          rcases List.mem_cons.mp hc with h | h
          · subst h; decide
          · simp at h)
      (by decide)
    rw [show ([EXPORT_WINDOWS_QSV_ENCODER] ++ [createSoftwareExportEncoder "fast"] :
        List ExportEncoderConfig) =
      [EXPORT_WINDOWS_QSV_ENCODER, createSoftwareExportEncoder "fast"] from rfl] at h
    rw [h]
    refine congrArg (fun evs => AttemptChainRun.mk evs _ _) ?_
    decide

/-- Closed form of the `process-batch` segment loop: the accumulated
results and engine calls are the input accumulators extended with one
entry per segment, indexed in input order. -/
theorem processBatchGo_closed (engine : ℕ → BatchSegment → Except String Unit)
    (baseName outputDir : String) :
    ∀ (segments : List BatchSegment) (i : ℕ) (results : List PerItemResult)
      (calls : List EngineCall),
      processBatchGo engine baseName outputDir i segments results calls =
        (results ++ segments.mapIdx
            (fun j seg => perItemOutcome engine baseName outputDir (i + j) seg),
          calls ++ segments.mapIdx
            (fun j seg => engineCallFor baseName outputDir (i + j) seg)) := by
  intro segments
  induction segments with
  | nil => intro i results calls; simp [processBatchGo]
  | cons seg rest ih =>
    intro i results calls
    have hplus : ∀ j : ℕ, i + (j + 1) = (i + 1) + j := by omega
    have hfun1 : (fun j (s : BatchSegment) =>
        perItemOutcome engine baseName outputDir (i + (j + 1)) s) =
        (fun j s => perItemOutcome engine baseName outputDir ((i + 1) + j) s) := by
      funext j s; rw [hplus j]
    have hfun2 : (fun j (s : BatchSegment) =>
        engineCallFor baseName outputDir (i + (j + 1)) s) =
        (fun j s => engineCallFor baseName outputDir ((i + 1) + j) s) := by
      funext j s; rw [hplus j]
    rcases he : engine i seg with m | u
    · rw [processBatchGo]
      simp only [he]
      rw [ih (i + 1)]
      simp only [List.mapIdx_cons, Nat.add_zero]
      rw [hfun1, hfun2]
      simp [perItemOutcome, engineCallFor, he, List.append_assoc]
    · rw [processBatchGo]
      simp only [he]
      rw [ih (i + 1)]
      simp only [List.mapIdx_cons, Nat.add_zero]
      rw [hfun1, hfun2]
      simp [perItemOutcome, engineCallFor, he, List.append_assoc]

/-- C3: `process-batch` returns exactly one result per input segment, in
input order, each carrying its segment's id; a failing item is recorded
with its error message while processing continues; and the overall reply
is `success: true` with the mixed result list. The closed conjunct is
the scenario with three segments where only the second transcode fails. -/
theorem processBatch_per_item_isolation :
    (∀ (engine : ℕ → BatchSegment → Except String Unit) (baseName outputDir : String)
       (segments : List BatchSegment),
      (processBatch engine baseName outputDir segments).1.success = true ∧
      (processBatch engine baseName outputDir segments).1.results =
        segments.mapIdx (fun i seg => perItemOutcome engine baseName outputDir i seg) ∧
      (processBatch engine baseName outputDir segments).1.results.length =
        segments.length) ∧
    (processBatch demoEngine "clip" "out" demoSegments).1.results =
      [⟨"s1", true, some "out/clip_clip_01.mov", none⟩,
        ⟨"s2", false, none, some "encoder failed"⟩,
        ⟨"s3", true, some "out/clip_clip_03.mov", none⟩] := by
  have hgen : ∀ (engine : ℕ → BatchSegment → Except String Unit)
      (baseName outputDir : String) (segments : List BatchSegment),
      (processBatch engine baseName outputDir segments).1.success = true ∧
      (processBatch engine baseName outputDir segments).1.results =
        segments.mapIdx (fun i seg => perItemOutcome engine baseName outputDir i seg) ∧
      (processBatch engine baseName outputDir segments).1.results.length =
        segments.length := by
    intro engine baseName outputDir segments
    have h := processBatchGo_closed engine baseName outputDir segments 0 [] []
    have hres : (processBatch engine baseName outputDir segments).1.results =
        segments.mapIdx (fun i seg => perItemOutcome engine baseName outputDir i seg) := by
      simp only [processBatch, h]
      simp [Nat.zero_add]
    refine ⟨?_, hres, ?_⟩
    · simp only [processBatch, h]
    · rw [hres]
      simp
  refine ⟨hgen, ?_⟩
  rw [(hgen demoEngine "clip" "out" demoSegments).2.1]
  decide

/-- C2 counterexample: with segments `[{id:"a",start:0,end:2},
{id:"b",start:5,end:4}]` and a transcode oracle that accepts every call,
the orchestrator neither rejects nor skips segment `b`: it invokes the
transcode with the negative duration `-1` (second engine call) and
records a success result for `b`, so no invariant check exists. -/
theorem processBatch_invalid_segment_not_rejected :
    (processBatch (fun _ _ => .ok ()) "clip" "out" [segA, segB]).1.results =
      [⟨"a", true, some "out/clip_clip_01.mov", none⟩,
        ⟨"b", true, some "out/clip_clip_02.mov", none⟩] ∧
    (processBatch (fun _ _ => .ok ()) "clip" "out" [segA, segB]).2.map
        EngineCall.durationSec = [2, -1] ∧
    segB.endSec < segB.startSec ∧
    ¬ (∀ r ∈ (processBatch (fun _ _ => .ok ()) "clip" "out" [segA, segB]).1.results,
        r.id = "b" → r.success = false) := by
  have h := processBatchGo_closed (fun _ _ => (.ok () : Except String Unit))
    "clip" "out" [segA, segB] 0 [] []
  have hp1 : clipOutputPath "out" "clip" 0 = "out/clip_clip_01.mov" := by decide
  have hp2 : clipOutputPath "out" "clip" 1 = "out/clip_clip_02.mov" := by decide
  have hres : (processBatch (fun _ _ => .ok ()) "clip" "out" [segA, segB]).1.results =
      [⟨"a", true, some "out/clip_clip_01.mov", none⟩,
        ⟨"b", true, some "out/clip_clip_02.mov", none⟩] := by
    simp only [processBatch, h]
    simp [List.mapIdx_cons, perItemOutcome, hp1, hp2, segA, segB]
  refine ⟨hres, ?_, ?_, ?_⟩
  · simp only [processBatch, h]
    simp only [List.mapIdx_cons, List.mapIdx_nil, engineCallFor, List.nil_append,
      List.map_cons, List.map_nil]
    norm_num [segA, segB]
  · norm_num [segA, segB]
  · intro hall
    have hb := hall ⟨"b", true, some "out/clip_clip_02.mov", none⟩
      (by rw [hres]; simp) rfl
    simp at hb

/-- C2 amended: the orchestrator performs no `end > start` validation.
Every segment, including one with `end < start`, is passed to the
transcode executor with duration `end - start` (negative for `b`); the
per-item result records the executor's outcome for `b`, while valid
segment `a` still yields `clip_clip_01.mov` whenever its transcode
succeeds. -/
theorem processBatch_invalid_segment_attempted :
    ∀ engine : ℕ → BatchSegment → Except String Unit,
      engine 0 segA = .ok () →
      (processBatch engine "clip" "out" [segA, segB]).1.results =
        [⟨"a", true, some "out/clip_clip_01.mov", none⟩,
          perItemOutcome engine "clip" "out" 1 segB] ∧
      (processBatch engine "clip" "out" [segA, segB]).2.map
        EngineCall.durationSec = [2, -1] := by
  intro engine hA
  have h := processBatchGo_closed engine "clip" "out" [segA, segB] 0 [] []
  have hp1 : clipOutputPath "out" "clip" 0 = "out/clip_clip_01.mov" := by decide
  constructor
  · simp only [processBatch, h]
    simp only [List.mapIdx_cons, List.mapIdx_nil, List.nil_append, Nat.add_zero]
    rw [show perItemOutcome engine "clip" "out" 0 segA =
        ⟨"a", true, some "out/clip_clip_01.mov", none⟩ from by
      simp [perItemOutcome, hA, hp1]
      rfl]
  · simp only [processBatch, h]
    simp only [List.mapIdx_cons, List.mapIdx_nil, engineCallFor, List.nil_append,
      List.map_cons, List.map_nil]
    norm_num [segA, segB]

/-- Witness for the amended C2: an executor that succeeds on `a` and
fails on the negative-duration call for `b` yields the normal output for
`a` and a recorded per-item failure for `b`. -/
theorem processBatch_invalid_segment_attempted_witness :
    (processBatch (fun i _ => if i = 0 then .ok () else .error "Invalid duration")
        "clip" "out" [segA, segB]).1.results =
      [⟨"a", true, some "out/clip_clip_01.mov", none⟩,
        ⟨"b", false, none, some "Invalid duration"⟩] ∧
    (processBatch (fun i _ => if i = 0 then .ok () else .error "Invalid duration")
        "clip" "out" [segA, segB]).2.map EngineCall.durationSec = [2, -1] := by
  have h := processBatch_invalid_segment_attempted
    (fun i _ => if i = 0 then .ok () else .error "Invalid duration") rfl
  refine ⟨?_, h.2⟩
  rw [h.1]
  decide

/-- C6: calling `process-lut-full-batch` with a missing, empty, or
whitespace-only LUT path returns `{ success: false, results: [] }`
immediately, with an empty effect trace: no progress event was emitted,
no output directory was created, and no subprocess was spawned. -/
theorem processLutFullBatch_empty_lut_fails_fast :
    ∀ (readable : String → Bool) (runVideo : ℕ → VideoEntry → LutVideoRun)
      (videos : List VideoEntry) (outputDir : String) (jobId : Option String),
      processLutFullBatch readable runVideo videos outputDir none jobId =
        .ok (⟨false, []⟩, []) ∧
      (∀ lutPath : String, jsTrim lutPath = "" →
        processLutFullBatch readable runVideo videos outputDir (some lutPath) jobId =
          .ok (⟨false, []⟩, [])) := by
  intro readable runVideo videos outputDir jobId
  constructor
  · rfl
  · intro lutPath htrim
    have hnorm : normalizeLutPath (some lutPath) = none := by
      simp [normalizeLutPath, htrim]
    simp [processLutFullBatch, resolveLutPath, hnorm]

/-- Witness: the whitespace-only LUT path `"   "` fails fast with no
effects. -/
theorem processLutFullBatch_empty_lut_fails_fast_witness :
    processLutFullBatch (fun _ => true) (fun _ _ => ⟨[], [], .ok "out/x_lut.mov"⟩)
        [⟨"v1", "a.mp4"⟩] "out" (some "   ") none =
      .ok (⟨false, []⟩, []) :=
  (processLutFullBatch_empty_lut_fails_fast (fun _ => true)
    (fun _ _ => ⟨[], [], .ok "out/x_lut.mov"⟩) [⟨"v1", "a.mp4"⟩] "out" none).2
    "   " (by decide)

/-- A `Map.set` followed by `Map.get` on the same key yields the new entry. -/
theorem cacheGet_cacheSet_self :
    ∀ (cache : ProbeCache) (filePath : String) (entry : ProbeCacheEntry),
      cacheGet (cacheSet cache filePath entry) filePath = some entry := by
  intro cache
  induction cache with
  | nil => intro p e; simp [cacheSet, cacheGet]
  | cons kv rest ih =>
    intro p e
    by_cases hk : kv.1 = p
    · simp [cacheSet, hk, cacheGet]
    · simp only [cacheSet]
      rw [if_neg hk]
      simp only [cacheGet]
      rw [if_neg hk]
      exact ih p e

/-- A `Map.set` on a key already present keeps the map's size. -/
theorem cacheSet_length_of_present :
    ∀ (cache : ProbeCache) (filePath : String) (e0 entry : ProbeCacheEntry),
      cacheGet cache filePath = some e0 →
      (cacheSet cache filePath entry).length = cache.length := by
  intro cache
  induction cache with
  | nil => intro p e0 e h; simp [cacheGet] at h
  | cons kv rest ih =>
    intro p e0 e h
    by_cases hk : kv.1 = p
    · simp [cacheSet, hk]
    · simp only [cacheGet] at h
      rw [if_neg hk] at h
      simp only [cacheSet]
      rw [if_neg hk]
      simp [ih p e0 e h]

/-- A `Map.set` on an absent key appends at the end. -/
theorem cacheSet_of_absent :
    ∀ (cache : ProbeCache) (filePath : String) (entry : ProbeCacheEntry),
      cacheGet cache filePath = none →
      cacheSet cache filePath entry = cache ++ [(filePath, entry)] := by
  intro cache
  induction cache with
  | nil => intro p e _; simp [cacheSet]
  | cons kv rest ih =>
    intro p e h
    simp only [cacheGet] at h
    by_cases hk : kv.1 = p
    · rw [if_pos hk] at h; exact absurd h (by simp)
    · rw [if_neg hk] at h
      simp only [cacheSet]
      rw [if_neg hk, ih p e h]
      simp

/-- Lookup skips a block in which the key is absent. -/
theorem cacheGet_append_of_none :
    ∀ (c d : ProbeCache) (filePath : String),
      cacheGet c filePath = none →
      cacheGet (c ++ d) filePath = cacheGet d filePath := by
  intro c
  induction c with
  | nil => intro d p _; simp
  | cons kv rest ih =>
    intro d p h
    simp only [cacheGet] at h
    by_cases hk : kv.1 = p
    · rw [if_pos hk] at h; exact absurd h (by simp)
    · rw [if_neg hk] at h
      simp only [List.cons_append, cacheGet]
      rw [if_neg hk]
      exact ih d p h

/-- Pruning is the identity while the cache is within capacity. -/
theorem pruneProbeCacheIfNeeded_of_le (cache : ProbeCache)
    (h : cache.length ≤ MAX_PROBE_CACHE_ENTRIES) :
    pruneProbeCacheIfNeeded cache = cache := by
  cases cache with
  | nil => rfl
  | cons kv rest =>
    rw [pruneProbeCacheIfNeeded, if_neg (by omega)]

/-- Appending a fresh entry to a within-capacity cache and pruning keeps
the fresh entry reachable: eviction only discards oldest entries. -/
theorem cacheGet_prune_append (cache : ProbeCache) (filePath : String)
    (entry : ProbeCacheEntry) (hnone : cacheGet cache filePath = none)
    (hlen : cache.length ≤ MAX_PROBE_CACHE_ENTRIES) :
    cacheGet (pruneProbeCacheIfNeeded (cache ++ [(filePath, entry)])) filePath =
      some entry := by
  by_cases hfull : cache.length = MAX_PROBE_CACHE_ENTRIES
  · cases cache with
    | nil => simp [MAX_PROBE_CACHE_ENTRIES] at hfull
    | cons kv rest =>
      have h1 : pruneProbeCacheIfNeeded ((kv :: rest) ++ [(filePath, entry)]) =
          pruneProbeCacheIfNeeded (rest ++ [(filePath, entry)]) := by
        rw [List.cons_append, pruneProbeCacheIfNeeded]
        rw [if_pos (by simp at hfull ⊢; omega)]
      have hrest : cacheGet rest filePath = none := by
        simp only [cacheGet] at hnone
        by_cases hk : kv.1 = filePath
        · rw [if_pos hk] at hnone; exact absurd hnone (by simp)
        · rwa [if_neg hk] at hnone
      rw [h1, pruneProbeCacheIfNeeded_of_le _ (by simp at hfull ⊢; omega)]
      rw [cacheGet_append_of_none rest _ filePath hrest]
      simp [cacheGet]
  · rw [pruneProbeCacheIfNeeded_of_le _ (by simp; omega)]
    rw [cacheGet_append_of_none cache _ filePath hnone]
    simp [cacheGet]

/-- After any `probeVideoInfo` call on a within-capacity cache whose stat
succeeds, the cache holds an entry for the file recording the statted
size and modification time together with the returned info. -/
theorem probeVideoInfo_cache_entry (stat : String → Option FileStat)
    (spawnProbe : String → ProbeVideoInfo) (cache : ProbeCache) (filePath : String)
    (st : FileStat) (hstat : stat filePath = some st)
    (hlen : cache.length ≤ MAX_PROBE_CACHE_ENTRIES) :
    cacheGet (probeVideoInfo stat spawnProbe cache filePath).cache filePath =
      some ⟨st.size, st.mtimeMs, (probeVideoInfo stat spawnProbe cache filePath).info⟩ := by
  rcases hread : readProbeCache stat cache filePath with _ | info
  · have hget : probeVideoInfo stat spawnProbe cache filePath =
        ⟨spawnProbe filePath,
          writeProbeCache stat cache filePath (spawnProbe filePath), true⟩ := by
      simp only [probeVideoInfo, hread]
    simp only [hget]
    simp only [writeProbeCache, hstat]
    rcases hc : cacheGet cache filePath with _ | e0
    · rw [cacheSet_of_absent cache filePath _ hc]
      exact cacheGet_prune_append cache filePath _ hc hlen
    · rw [pruneProbeCacheIfNeeded_of_le _ (by
        rw [cacheSet_length_of_present cache filePath e0 _ hc]; exact hlen)]
      exact cacheGet_cacheSet_self cache filePath _
  · have hget : probeVideoInfo stat spawnProbe cache filePath =
        ⟨info, cache, false⟩ := by
      simp only [probeVideoInfo, hread]
    simp only [hget]
    simp only [readProbeCache, hstat] at hread
    rcases hc : cacheGet cache filePath with _ | cached
    · simp only [hc] at hread
      exact absurd hread (by simp)
    · simp only [hc] at hread
      split at hread
      · rename_i hcond
        have hinfo : cached.info = info := by
          injection hread
        rcases cached with ⟨cs, cm, ci⟩
        simp only at hcond hinfo
        rw [hcond.1, hcond.2, hinfo]
      · exact absurd hread (by simp)

/-- C7: probing the same path twice without the file's size or
modification time changing spawns the external process at most once —
the second call is a cache hit returning the same info with no spawn —
while a stat whose size or modification time differs from the cached
entry forces the next probe to re-spawn the external process. -/
theorem probeVideoInfo_cache_validity :
    ∀ (stat : String → Option FileStat) (spawnProbe : String → ProbeVideoInfo)
      (cache : ProbeCache) (filePath : String) (st : FileStat),
      stat filePath = some st → cache.length ≤ MAX_PROBE_CACHE_ENTRIES →
      ((probeVideoInfo stat spawnProbe
          (probeVideoInfo stat spawnProbe cache filePath).cache filePath).spawned = false ∧
        (probeVideoInfo stat spawnProbe
          (probeVideoInfo stat spawnProbe cache filePath).cache filePath).info =
          (probeVideoInfo stat spawnProbe cache filePath).info) ∧
      (∀ (stat2 : String → Option FileStat) (st2 : FileStat),
        stat2 filePath = some st2 →
        st2.size ≠ st.size ∨ st2.mtimeMs ≠ st.mtimeMs →
        (probeVideoInfo stat2 spawnProbe
          (probeVideoInfo stat spawnProbe cache filePath).cache filePath).spawned = true) := by
  intro stat spawnProbe cache filePath st hstat hlen
  have hkey := probeVideoInfo_cache_entry stat spawnProbe cache filePath st hstat hlen
  generalize hR : probeVideoInfo stat spawnProbe cache filePath = r at hkey ⊢
  constructor
  · have hread2 : readProbeCache stat r.cache filePath = some r.info := by
      simp only [readProbeCache, hstat, hkey]
      simp
    constructor
    · simp only [probeVideoInfo, hread2]
    · simp only [probeVideoInfo, hread2]
  · intro stat2 st2 hstat2 hdiff
    have hcond : ¬ ((st.size = st2.size) ∧ (st.mtimeMs = st2.mtimeMs)) := by
      rintro ⟨h1, h2⟩
      rcases hdiff with h | h
      · exact h h1.symm
      · exact h h2.symm
    have hread2 : readProbeCache stat2 r.cache filePath = none := by
      simp only [readProbeCache, hstat2, hkey]
      simp only [if_neg hcond]
    simp only [probeVideoInfo, hread2]

/-- Witness: probing `clip.mp4` on an empty cache, then again with the
same stat, spawns no second probe; after the size changes from 100 to
101 the next probe re-spawns. -/
theorem probeVideoInfo_cache_validity_witness :
    (probeVideoInfo (fun _ => some ⟨100, 5⟩) (fun _ => demoProbeInfo)
        ((probeVideoInfo (fun _ => some ⟨100, 5⟩) (fun _ => demoProbeInfo)
          [] "clip.mp4").cache) "clip.mp4").spawned = false ∧
    (probeVideoInfo (fun _ => some ⟨101, 5⟩) (fun _ => demoProbeInfo)
        ((probeVideoInfo (fun _ => some ⟨100, 5⟩) (fun _ => demoProbeInfo)
          [] "clip.mp4").cache) "clip.mp4").spawned = true := by
  have h := probeVideoInfo_cache_validity (fun _ => some ⟨100, 5⟩)
    (fun _ => demoProbeInfo) [] "clip.mp4" ⟨100, 5⟩ rfl (by decide)
  exact ⟨h.1.1, h.2 (fun _ => some ⟨101, 5⟩) ⟨101, 5⟩ rfl (Or.inl (by decide))⟩

/-- Any filter graph the LUT builder produces starts with `lut3d` or
`split`, so it is never one of the bitrate option flags. -/
theorem buildLutFilterGraph_ne_bitrate_flags :
    ∀ (lutPath : Option String) (lutIntensity : ℚ) (g : String),
      buildLutFilterGraph lutPath lutIntensity = some g →
      g ≠ "-b:v" ∧ g ≠ "-b:a" := by
  intro lut li g hg
  have hhead : g.data.head? = some 'l' ∨ g.data.head? = some 's' := by
    rcases lut with _ | p
    · exact absurd hg (by simp [buildLutFilterGraph])
    · simp only [buildLutFilterGraph] at hg
      split at hg
      · exact absurd hg (by simp)
      · split at hg
        · exact absurd hg (by simp)
        · split at hg
          · left
            have hg2 : buildLutFilter p = g := by injection hg
            rw [← hg2, buildLutFilter, String.data_append, String.data_append]
            rfl
          · right
            have hg2 : "split=2[orig][lutsrc];[lutsrc]" ++ buildLutFilter p ++
                "[lutout];[lutout][orig]blend=all_mode=normal:all_opacity=" ++
                jsToFixedFour (min 100 (max 0 li) / 100) = g := by
              injection hg
            rw [← hg2, String.data_append, String.data_append, String.data_append]
            rfl
  refine ⟨?_, ?_⟩ <;> intro heq <;> rw [heq] at hhead <;>
    rcases hhead with h | h <;> exact absurd h (by decide)

/-- A bitrate value rendered as `<n>k` ends in `k`, so it is never one of
the bitrate option flags. -/
theorem append_k_ne_bitrate_flags :
    ∀ t : String, t ++ "k" ≠ "-b:v" ∧ t ++ "k" ≠ "-b:a" := by
  intro t
  have hlast : (t ++ "k").data.getLast? = some 'k' := by
    rw [String.data_append]
    exact List.getLast?_concat _
  refine ⟨?_, ?_⟩ <;> intro heq <;> rw [heq] at hlast <;> exact absurd hlast (by decide)

set_option maxHeartbeats 1000000 in
/-- Membership characterization for `buildExportOutputOptions`: an option
string appears iff it is one of the fixed options, one of the encoder's
own options, part of the `-vf` LUT filter pair, or part of a bitrate
pair whose source bitrate is truthy and positive. -/
theorem mem_buildExportOutputOptions (s : String) (encoder : ExportEncoderConfig)
    (lutPath : Option String) (lutIntensity : ℚ)
    (v a : Option ℚ) :
    s ∈ buildExportOutputOptions encoder lutPath lutIntensity v a ↔
      (s ∈ ["-movflags", "use_metadata_tags", "-pix_fmt", "yuv420p"] ∨
        s ∈ encoder.outputOptions ∨
        (∃ g, buildLutFilterGraph lutPath lutIntensity = some g ∧ (s = "-vf" ∨ s = g)) ∨
        (∃ x, v = some x ∧ 0 < x ∧ (s = "-b:v" ∨ s = toString (jsRound x) ++ "k")) ∨
        (∃ y, a = some y ∧ 0 < y ∧ (s = "-b:a" ∨ s = toString (jsRound y) ++ "k"))) := by
  have htruthy : ∀ z : ℚ, (z ≠ 0 ∧ 0 < z) ↔ 0 < z :=
    fun z => ⟨fun h => h.2, fun h => ⟨ne_of_gt h, h⟩⟩
  rcases hg : buildLutFilterGraph lutPath lutIntensity with _ | g <;>
    rcases v with _ | x <;> rcases a with _ | y
  · simp only [buildExportOutputOptions, hg]
    simp [List.mem_append]
    tauto
  · simp only [buildExportOutputOptions, hg]
    by_cases hy : 0 < y
    · rw [if_pos ((htruthy y).mpr hy)]
      simp [List.mem_append, hy]
      tauto
    · rw [if_neg (fun hc => hy ((htruthy y).mp hc))]
      simp [List.mem_append, hy]
      tauto
  · simp only [buildExportOutputOptions, hg]
    by_cases hx : 0 < x
    · rw [if_pos ((htruthy x).mpr hx)]
      simp [List.mem_append, hx]
      tauto
    · rw [if_neg (fun hc => hx ((htruthy x).mp hc))]
      simp [List.mem_append, hx]
      tauto
  · simp only [buildExportOutputOptions, hg]
    by_cases hx : 0 < x <;> by_cases hy : 0 < y
    · rw [if_pos ((htruthy x).mpr hx), if_pos ((htruthy y).mpr hy)]
      simp [List.mem_append, hx, hy]
      tauto
    · rw [if_pos ((htruthy x).mpr hx), if_neg (fun hc => hy ((htruthy y).mp hc))]
      simp [List.mem_append, hx, hy]
      tauto
    · rw [if_neg (fun hc => hx ((htruthy x).mp hc)), if_pos ((htruthy y).mpr hy)]
      simp [List.mem_append, hx, hy]
      tauto
    · rw [if_neg (fun hc => hx ((htruthy x).mp hc)),
        if_neg (fun hc => hy ((htruthy y).mp hc))]
      simp [List.mem_append, hx, hy]
      tauto
  · simp only [buildExportOutputOptions, hg]
    simp [List.mem_append]
    tauto
  · simp only [buildExportOutputOptions, hg]
    by_cases hy : 0 < y
    · rw [if_pos ((htruthy y).mpr hy)]
      simp [List.mem_append, hy]
      tauto
    · rw [if_neg (fun hc => hy ((htruthy y).mp hc))]
      simp [List.mem_append, hy]
      tauto
  · simp only [buildExportOutputOptions, hg]
    by_cases hx : 0 < x
    · rw [if_pos ((htruthy x).mpr hx)]
      simp [List.mem_append, hx]
      tauto
    · rw [if_neg (fun hc => hx ((htruthy x).mp hc))]
      simp [List.mem_append, hx]
      tauto
  · simp only [buildExportOutputOptions, hg]
    by_cases hx : 0 < x <;> by_cases hy : 0 < y
    · rw [if_pos ((htruthy x).mpr hx), if_pos ((htruthy y).mpr hy)]
      simp [List.mem_append, hx, hy]
      tauto
    · rw [if_pos ((htruthy x).mpr hx), if_neg (fun hc => hy ((htruthy y).mp hc))]
      simp [List.mem_append, hx, hy]
      tauto
    · rw [if_neg (fun hc => hx ((htruthy x).mp hc)), if_pos ((htruthy y).mpr hy)]
      simp [List.mem_append, hx, hy]
      tauto
    · rw [if_neg (fun hc => hx ((htruthy x).mp hc)),
        if_neg (fun hc => hy ((htruthy y).mp hc))]
      simp [List.mem_append, hx, hy]
      tauto

/-- C9: `-b:v` (resp. `-b:a`) is appended to the export output options
exactly when the corresponding source bitrate is a truthy positive
value; and `probeSourceInfoWithBitrates` uses the probed video-stream
bitrate when present, estimates `max(400, container − audio)` (audio
taken as 0 when unknown) when only a truthy container bitrate is known,
and otherwise yields no bitrate. -/
theorem buildExportOutputOptions_bitrate_preservation :
    (∀ (encoder : ExportEncoderConfig) (lutPath : Option String) (lutIntensity : ℚ)
       (v a : Option ℚ),
      "-b:v" ∉ encoder.outputOptions →
      ("-b:v" ∈ buildExportOutputOptions encoder lutPath lutIntensity v a ↔
        ∃ x, v = some x ∧ 0 < x)) ∧
    (∀ (encoder : ExportEncoderConfig) (lutPath : Option String) (lutIntensity : ℚ)
       (v a : Option ℚ),
      "-b:a" ∉ encoder.outputOptions →
      ("-b:a" ∈ buildExportOutputOptions encoder lutPath lutIntensity v a ↔
        ∃ y, a = some y ∧ 0 < y)) ∧
    (∀ info : ProbeVideoInfo,
      (probeSourceInfoWithBitrates (.ok info)).2.2 =
        info.audioStream.bind ProbeAudioStream.bit_rate_kbps) ∧
    (∀ (info : ProbeVideoInfo) (b : ℚ),
      info.stream.bind ProbeVideoStream.bit_rate_kbps = some b →
      (probeSourceInfoWithBitrates (.ok info)).2.1 = some b) ∧
    (∀ (info : ProbeVideoInfo) (f : ℚ),
      info.stream.bind ProbeVideoStream.bit_rate_kbps = none →
      info.formatBitRateKbps = some f → f ≠ 0 →
      (probeSourceInfoWithBitrates (.ok info)).2.1 =
        some (max 400 (f - ((probeSourceInfoWithBitrates (.ok info)).2.2).getD 0))) ∧
    (∀ info : ProbeVideoInfo,
      info.stream.bind ProbeVideoStream.bit_rate_kbps = none →
      (info.formatBitRateKbps = none ∨ info.formatBitRateKbps = some 0) →
      (probeSourceInfoWithBitrates (.ok info)).2.1 = none) := by
  refine ⟨?_, ?_, ?_, ?_, ?_, ?_⟩
  · intro encoder lutPath lutIntensity v a henc
    rw [mem_buildExportOutputOptions]
    constructor
    · rintro (h | h | ⟨g, hg, h | h⟩ | ⟨x, hx, hpos, h | h⟩ | ⟨y, hy, hpos, h | h⟩)
      · exact absurd h (by decide)
      · exact absurd h henc
      · exact absurd h (by decide)
      · exact absurd h.symm (buildLutFilterGraph_ne_bitrate_flags lutPath lutIntensity g hg).1
      · exact ⟨x, hx, hpos⟩
      · exact absurd h.symm (append_k_ne_bitrate_flags (toString (jsRound x))).1
      · exact absurd h (by decide)
      · exact absurd h.symm (append_k_ne_bitrate_flags (toString (jsRound y))).1
    · rintro ⟨x, hx, hpos⟩
      exact Or.inr (Or.inr (Or.inr (Or.inl ⟨x, hx, hpos, Or.inl rfl⟩)))
  · intro encoder lutPath lutIntensity v a henc
    rw [mem_buildExportOutputOptions]
    constructor
    · rintro (h | h | ⟨g, hg, h | h⟩ | ⟨x, hx, hpos, h | h⟩ | ⟨y, hy, hpos, h | h⟩)
      · exact absurd h (by decide)
      · exact absurd h henc
      · exact absurd h (by decide)
      · exact absurd h.symm (buildLutFilterGraph_ne_bitrate_flags lutPath lutIntensity g hg).2
      · exact absurd h (by decide)
      · exact absurd h.symm (append_k_ne_bitrate_flags (toString (jsRound x))).2
      · exact ⟨y, hy, hpos⟩
      · exact absurd h.symm (append_k_ne_bitrate_flags (toString (jsRound y))).2
    · rintro ⟨y, hy, hpos⟩
      exact Or.inr (Or.inr (Or.inr (Or.inr ⟨y, hy, hpos, Or.inl rfl⟩)))
  · intro info
    rcases info with ⟨st, au, du, fo⟩
    rcases au with _ | au <;> simp [probeSourceInfoWithBitrates, Option.bind]
  · intro info b hs
    simp only [probeSourceInfoWithBitrates, hs]
  · intro info f hs hf hne
    simp only [probeSourceInfoWithBitrates, hs, hf]
    rw [if_pos hne]
  · intro info hs hfmt
    rcases hfmt with hfmt | hfmt
    · simp only [probeSourceInfoWithBitrates, hs, hfmt]
    · simp only [probeSourceInfoWithBitrates, hs, hfmt]
      rw [if_neg (by simp)]

/-- Witness: with a QSV export encoder, source video bitrate 4872 and
audio bitrate 128 produce both `-b:v` and `-b:a`; absent bitrates
produce neither; and the probe of a source with container bitrate 5000
and audio 128 (no per-stream video bitrate) estimates the video share as
`max(400, 5000 - 128) = 4872`. -/
theorem buildExportOutputOptions_bitrate_preservation_witness :
    "-b:v" ∈ buildExportOutputOptions EXPORT_WINDOWS_QSV_ENCODER none 100
      (some 4872) (some 128) ∧
    "-b:a" ∈ buildExportOutputOptions EXPORT_WINDOWS_QSV_ENCODER none 100
      (some 4872) (some 128) ∧
    "-b:v" ∉ buildExportOutputOptions EXPORT_WINDOWS_QSV_ENCODER none 100
      none none ∧
    (probeSourceInfoWithBitrates (.ok demoProbeInfo)).2.1 = some 4872 := by
  refine ⟨?_, ?_, ?_, ?_⟩
  · exact (buildExportOutputOptions_bitrate_preservation.1 EXPORT_WINDOWS_QSV_ENCODER
      none 100 (some 4872) (some 128) (by decide)).mpr ⟨4872, rfl, by norm_num⟩
  · exact (buildExportOutputOptions_bitrate_preservation.2.1 EXPORT_WINDOWS_QSV_ENCODER
      none 100 (some 4872) (some 128) (by decide)).mpr ⟨128, rfl, by norm_num⟩
  · intro hmem
    have h := (buildExportOutputOptions_bitrate_preservation.1 EXPORT_WINDOWS_QSV_ENCODER
      none 100 none none (by decide)).mp hmem
    rcases h with ⟨x, hx, _⟩
    exact absurd hx (by simp)
  · have ha := buildExportOutputOptions_bitrate_preservation.2.2.1 demoProbeInfo
    have h5 := buildExportOutputOptions_bitrate_preservation.2.2.2.2.1 demoProbeInfo
      5000 rfl rfl (by norm_num)
    rw [ha] at h5
    rw [h5]
    norm_num [demoProbeInfo]
